import Mathlib

set_option autoImplicit false

/-
Shallow embedding of the graph-projection and tabular-export layer of the
automobile-sensors knowledge-graph repository:
  src/kg_sensors/nx_convert.py   (entity and bipartite projection)
  src/kg_sensors/exporters.py    (CSV export)
  src/kg_sensors/rdf_utils.py    (label and type resolution, namespaces)
rdflib graphs are modelled as lists of triples over a term type with
URI references, blank nodes and literals, together with the list of
namespace-prefix bindings.  networkx undirected simple graphs are
modelled as association lists keyed by node identifier and by the
(unordered) endpoint pair.
-/

namespace KGSensors

/-- An RDF term: a URI reference, a blank node, or a literal (the literal
value is kept as its string form, which is all the embedded code uses). -/
inductive Term where
  | uri (s : String)
  | bnode (s : String)
  | lit (s : String)
deriving DecidableEq, Repr

/-- Python str(term): the underlying string of a term. -/
def Term.str : Term → String
  | .uri s => s
  | .bnode s => s
  | .lit s => s

/-- Python isinstance(term, URIRef). -/
def Term.isUri : Term → Bool
  | .uri _ => true
  | _ => false

/-- Python truthiness of a term (an empty string is falsy). -/
def Term.truthy (t : Term) : Bool := t.str != ""

/-- An RDF triple (subject, predicate, object). -/
abbrev Triple := Term × Term × Term

/-- An rdflib Graph: its triples (list order stands in for the internal
enumeration order of the triple set) and its prefix-to-namespace bindings. -/
structure RDFGraph where
  triples : List Triple
  nsBindings : List (String × String)
deriving DecidableEq, Repr

/-- Graph.value(subject=s, predicate=p): the object of the first matching
triple, if any. -/
def RDFGraph.value (g : RDFGraph) (s p : Term) : Option Term :=
  (g.triples.find? (fun t => decide (t.1 = s) && decide (t.2.1 = p))).map (fun t => t.2.2)

/-- Graph.subjects(predicate=p, object=o) as a list (duplicates possible,
the callers wrap it in set()). -/
def RDFGraph.subjects (g : RDFGraph) (p o : Term) : List Term :=
  (g.triples.filter (fun t => decide (t.2.1 = p) && decide (t.2.2 = o))).map (fun t => t.1)

/-- Graph.objects(subject=s, predicate=p). -/
def RDFGraph.objects (g : RDFGraph) (s p : Term) : List Term :=
  (g.triples.filter (fun t => decide (t.1 = s) && decide (t.2.1 = p))).map (fun t => t.2.2)

/-- rdfs:label. -/
def RDFS_label : Term := .uri "http://www.w3.org/2000/01/rdf-schema#label"

/-- rdf:type. -/
def RDF_type : Term := .uri "http://www.w3.org/1999/02/22-rdf-syntax-ns#type"

/-- EX.VehicleModel from rdf_utils. -/
def EX_VehicleModel : Term := .uri "http://example.com/ontology/VehicleModel"

/-- EX.SensorModel from rdf_utils. -/
def EX_SensorModel : Term := .uri "http://example.com/ontology/SensorModel"

/-- EX.compatibleWithModel from rdf_utils. -/
def EX_compatibleWithModel : Term := .uri "http://example.com/ontology/compatibleWithModel"

/-- NS_MAP from rdf_utils: the bindings given to every graph of the project. -/
def NS_MAP : List (String × String) :=
  [("ex", "http://example.com/ontology/"),
   ("sen", "http://example.com/sensor/"),
   ("veh", "http://example.com/vehicle/"),
   ("dtc", "http://example.com/dtc/"),
   ("prot", "http://example.com/protocol/"),
   ("unit", "http://example.com/unit/"),
   ("rdfs", "http://www.w3.org/2000/01/rdf-schema#"),
   ("rdf", "http://www.w3.org/1999/02/22-rdf-syntax-ns#"),
   ("xsd", "http://www.w3.org/2001/XMLSchema#")]

/-- Helper for splitUri: split a character list at its LAST slash or hash,
the separator staying with the namespace part. -/
def splitAtLastSep : List Char → Option (List Char × List Char)
  | [] => none
  | c :: rest =>
    match splitAtLastSep rest with
    | some (ns, loc) => some (c :: ns, loc)
    | none => if c = '/' ∨ c = '#' then some ([c], rest) else none

/-- rdflib split_uri, modelled as splitting at the last slash or hash;
none when the URI has neither. -/
def splitUri (u : String) : Option (String × String) :=
  (splitAtLastSep u.toList).map (fun p => (String.mk p.1, String.mk p.2))

/-- Helper for lastSegment: the characters after the last slash, when a
slash occurs. -/
def afterLastSlash : List Char → Option (List Char)
  | [] => none
  | c :: rest =>
    match afterLastSlash rest with
    | some l => some l
    | none => if c = '/' then some rest else none

/-- Python u.split(&quot;/&quot;)[-1]: the substring after the last slash, or the
whole string when no slash occurs. -/
def lastSegment (u : String) : String :=
  match afterLastSlash u.toList with
  | some l => String.mk l
  | none => u

/-- Python s.replace(a, b) for single characters, modelled charwise. -/
def strReplaceChar (s : String) (a b : Char) : String :=
  String.mk (s.toList.map (fun c => if c = a then b else c))

/-- Python s.upper(), modelled charwise over the ASCII range. -/
def strUpper (s : String) : String :=
  String.mk (s.toList.map Char.toUpper)

/-- The prefix bound to a namespace, if any (store.prefix). -/
def prefixFor (g : RDFGraph) (ns : String) : Option String :=
  ((g.nsBindings.find? (fun b => decide (b.2 = ns))).map (fun b => b.1))

/-- URIRef.n3(namespace_manager), i.e. NamespaceManager.normalizeUri: the
qualified form when a binding matches the namespace part, else the URI in
angle brackets. -/
def normalizeUri (g : RDFGraph) (u : String) : String :=
  match splitUri u with
  | none => "<" ++ u ++ ">"
  | some (ns, loc) =>
    match prefixFor g ns with
    | none => "<" ++ u ++ ">"
    | some pfx => pfx ++ ":" ++ loc

/-- NamespaceManager.qname: the bound qualified name; a namespace without a
binding gets a generated prefix (modelled uniformly as ns1; rdflib counts
generated prefixes per manager).  rdflib raises on a URI with no separator;
that branch is modelled as returning the URI unchanged. -/
def qname (g : RDFGraph) (u : String) : String :=
  match splitUri u with
  | none => u
  | some (ns, loc) =>
    match prefixFor g ns with
    | none => "ns1:" ++ loc
    | some pfx => pfx ++ ":" ++ loc

namespace NxConvert

/-- nx_convert.get_label: the rdfs:label literal when present and truthy,
else the n3 form under the namespace manager (never the last URI segment). -/
def get_label (g : RDFGraph) (node : Term) : String :=
  match g.value node RDFS_label with
  | some l => if l.truthy then l.str else normalizeUri g node.str
  | none => normalizeUri g node.str

/-- nx_convert.get_type_label: the label of the rdf:type value when present
and truthy (no URIRef check in this variant), else the sentinel Resource. -/
def get_type_label (g : RDFGraph) (node : Term) : String :=
  match g.value node RDF_type with
  | some t => if t.truthy then get_label g t else "Resource"
  | none => "Resource"

end NxConvert

/-- Python s.startswith(pfx), modelled over the character list. -/
def strStartsWith (s pfx : String) : Bool :=
  decide (s.toList.take pfx.toList.length = pfx.toList)

namespace RdfUtils

/-- Step 2 and 3 of rdf_utils.get_node_label: the qualified name when the n3
form is not an angle-bracket form, else the last path segment. -/
def qnameOrSegment (g : RDFGraph) (u : String) : String :=
  if strStartsWith (normalizeUri g u) "<" then lastSegment u else normalizeUri g u

/-- rdf_utils.get_node_label: rdfs:label when present and truthy, else the
qualified name, else the last path segment of the URI. -/
def get_node_label (g : RDFGraph) (node : Term) : String :=
  if !node.isUri then node.str
  else
    match g.value node RDFS_label with
    | some l => if l.truthy then l.str else qnameOrSegment g node.str
    | none => qnameOrSegment g node.str

/-- rdf_utils.get_type_label: the label of the rdf:type value when present,
truthy and a URIRef, else the sentinel Resource. -/
def get_type_label (g : RDFGraph) (node : Term) : String :=
  match g.value node RDF_type with
  | some t => if t.truthy && t.isUri then get_node_label g t else "Resource"
  | none => "Resource"

end RdfUtils

/-- A networkx undirected simple graph with node attributes of type α and
edge attributes of type β.  A node auto-added by add_edge carries none.
Edges are keyed by the endpoint pair as first inserted; lookups treat the
pair as unordered. -/
structure NXGraph (α β : Type) where
  nodes : List (String × Option α)
  edges : List ((String × String) × β)
deriving DecidableEq, Repr

namespace NXGraph

variable {α β : Type}

/-- nx.Graph(). -/
def empty : NXGraph α β := ⟨[], []⟩

/-- Python n in graph. -/
def hasNode (G : NXGraph α β) (n : String) : Bool :=
  G.nodes.any (fun p => decide (p.1 = n))

/-- graph.add_node(n, attrs): update the attributes when the node exists
(every embedded call passes the full attribute set, so update = replace),
else append it. -/
def addNode (G : NXGraph α β) (n : String) (a : α) : NXGraph α β :=
  if G.hasNode n then
    ⟨G.nodes.map (fun p => if p.1 = n then (n, some a) else p), G.edges⟩
  else
    ⟨G.nodes ++ [(n, some a)], G.edges⟩

/-- add_edge first ensures an endpoint exists, adding it attribute-free. -/
def ensureNode (G : NXGraph α β) (n : String) : NXGraph α β :=
  if G.hasNode n then G else ⟨G.nodes ++ [(n, none)], G.edges⟩

/-- Whether a stored edge key matches the unordered pair u, v. -/
def keyMatches (k : String × String) (u v : String) : Bool :=
  (decide (k.1 = u) && decide (k.2 = v)) || (decide (k.1 = v) && decide (k.2 = u))

/-- Python graph.has_edge(u, v). -/
def hasEdge (G : NXGraph α β) (u v : String) : Bool :=
  G.edges.any (fun e => keyMatches e.1 u v)

/-- graph.add_edge(u, v, attrs): auto-add missing endpoints, then update the
attributes of the existing edge (full replace, as for addNode) or append. -/
def addEdge (G : NXGraph α β) (u v : String) (b : β) : NXGraph α β :=
  if ((G.ensureNode u).ensureNode v).hasEdge u v then
    ⟨((G.ensureNode u).ensureNode v).nodes,
     ((G.ensureNode u).ensureNode v).edges.map
       (fun e => if keyMatches e.1 u v then (e.1, b) else e)⟩
  else
    ⟨((G.ensureNode u).ensureNode v).nodes,
     ((G.ensureNode u).ensureNode v).edges ++ [((u, v), b)]⟩

/-- The node identifiers of the graph. -/
def nodeKeys (G : NXGraph α β) : List String :=
  G.nodes.map (fun p => p.1)

/-- First attribute record stored under a key in a node list. -/
def lookupAttr {α : Type} (l : List (String × Option α)) (n : String) : Option α :=
  match l.find? (fun p => decide (p.1 = n)) with
  | some (_, some a) => some a
  | _ => none

/-- The attribute record stored for a node, when the node exists and was
given attributes. -/
def attrOf (G : NXGraph α β) (n : String) : Option α :=
  lookupAttr G.nodes n

end NXGraph

/-- Node attributes attached by the entity projector. -/
structure EntityAttr where
  label : String
  type : String
  uri : String
  kind : String
deriving DecidableEq, Repr

/-- Edge attributes attached by the entity projector. -/
structure EdgeAttr where
  label : String
  uri : String
deriving DecidableEq, Repr

/-- Node attributes attached by the bipartite projector. -/
structure BipAttr where
  label : String
  type : String
  bipartite : Nat
deriving DecidableEq, Repr

/-- The first pass of both the entity projector and the exporter: the set of
URI references appearing as subject or object of some triple (a deduplicated
list models the Python set). -/
def collectEntityNodes (g : RDFGraph) : List Term :=
  ((g.triples.map (fun t => [t.1, t.2.2])).flatten.filter Term.isUri).dedup

/-- The attribute record attached to an entity-graph node. -/
def entityAttrOf (g : RDFGraph) (n : Term) : EntityAttr :=
  ⟨NxConvert.get_label g n, NxConvert.get_type_label g n, n.str, "Entity"⟩

/-- The first pass of to_networkx_entity_graph: one node per collected URI,
with resolved label and type, the raw identifier and the Entity kind tag. -/
def entityBase (g : RDFGraph) : NXGraph EntityAttr EdgeAttr :=
  (collectEntityNodes g).foldl
    (fun acc n => acc.addNode n.str (entityAttrOf g n))
    NXGraph.empty

/-- The body of the second pass of to_networkx_entity_graph: a triple whose
subject and object are both URI references becomes an edge carrying the
qualified predicate name and the raw predicate. -/
def entityEdgeStep (g : RDFGraph) (acc : NXGraph EntityAttr EdgeAttr) (t : Triple) :
    NXGraph EntityAttr EdgeAttr :=
  if t.1.isUri && t.2.2.isUri then
    acc.addEdge t.1.str t.2.2.str ⟨qname g t.2.1.str, t.2.1.str⟩
  else acc

/-- nx_convert.to_networkx_entity_graph: every URI subject or object becomes
a node with resolved label and type; every triple between two URI references
becomes an (undirected) edge carrying the qualified predicate name. -/
def to_networkx_entity_graph (g : RDFGraph) : NXGraph EntityAttr EdgeAttr :=
  g.triples.foldl (entityEdgeStep g) (entityBase g)

/-- set(g.subjects(RDF.type, EX.VehicleModel)) in the bipartite projector. -/
def vehiclesOf (g : RDFGraph) : List Term :=
  (g.subjects RDF_type EX_VehicleModel).dedup

/-- set(g.subjects(RDF.type, EX.SensorModel)) in the bipartite projector. -/
def sensorsOf (g : RDFGraph) : List Term :=
  (g.subjects RDF_type EX_SensorModel).dedup

/-- The attribute record attached to a vehicle node: bipartite group 0. -/
def vehicleAttrOf (g : RDFGraph) (v : Term) : BipAttr :=
  ⟨NxConvert.get_label g v, "VehicleModel", 0⟩

/-- The attribute record attached to a sensor node: bipartite group 1. -/
def sensorAttrOf (g : RDFGraph) (s : Term) : BipAttr :=
  ⟨NxConvert.get_label g s, "SensorModel", 1⟩

/-- The node phase of to_networkx_bipartite_graph: vehicles get bipartite=0,
then sensors get bipartite=1 (a resource in both sets is overwritten to 1). -/
def bipBase (g : RDFGraph) : NXGraph BipAttr String :=
  (sensorsOf g).foldl
    (fun acc s => acc.addNode s.str (sensorAttrOf g s))
    ((vehiclesOf g).foldl
      (fun acc v => acc.addNode v.str (vehicleAttrOf g v))
      NXGraph.empty)

/-- The body of the edge phase of to_networkx_bipartite_graph: an edge is
added for a compatibleWithModel assertion from a vehicle exactly when the
object string is already a node of the graph (any node, not only a sensor). -/
def bipEdgeStep (acc : NXGraph BipAttr String) (p : Term × Term) : NXGraph BipAttr String :=
  if acc.hasNode p.2.str then acc.addEdge p.1.str p.2.str "compatibleWith" else acc

/-- nx_convert.to_networkx_bipartite_graph: the node phase, then for each
vehicle each compatibleWithModel object already present as a node yields an
edge. -/
def to_networkx_bipartite_graph (g : RDFGraph) : NXGraph BipAttr String :=
  (vehiclesOf g).foldl
    (fun acc v =>
      (g.objects v EX_compatibleWithModel).foldl
        (fun acc2 s => bipEdgeStep acc2 (v, s))
        acc)
    (bipBase g)

/-- The vehicle-to-object pairs visited by the edge phase of the bipartite
projector, flattened in visiting order. -/
def compatPairs (g : RDFGraph) : List (Term × Term) :=
  (vehiclesOf g).flatMap
    (fun v => (g.objects v EX_compatibleWithModel).map (fun o => (v, o)))

/-- The side tag stored for a node of the bipartite projection. -/
def sideOf (G : NXGraph BipAttr String) (n : String) : Option Nat :=
  (G.attrOf n).map BipAttr.bipartite

/-- A row of nodes.csv. -/
structure NodeRow where
  uri : String
  label : String
  type : String
deriving DecidableEq, Repr

/-- A row of edges.csv. -/
structure EdgeRow where
  start_uri : String
  end_uri : String
  type : String
  uri : String
deriving DecidableEq, Repr

/-- Python (uri, None, None) in g: whether the term is the subject of some
triple. -/
def isSubjectOf (g : RDFGraph) (u : Term) : Bool :=
  g.triples.any (fun t => decide (t.1 = u))

/-- The node record built by exporters.export_to_csv for one URI: resolved
type, overridden to Concept when it is the sentinel Resource and the URI is
never a subject; resolved label; the URI itself. -/
def nodeRowOf (g : RDFGraph) (u : Term) : NodeRow :=
  ⟨u.str, RdfUtils.get_node_label g u,
   if decide (RdfUtils.get_type_label g u = "Resource") && !isSubjectOf g u then "Concept"
   else RdfUtils.get_type_label g u⟩

/-- exporters.export_to_csv: the node rows (one per URI subject or object,
collected exactly as in the entity projector; the processed_nodes check of
the source is vacuous since the collection is already a set) and the edge
rows (one per triple between URI references, the relation tag being the
qualified predicate name with the colon replaced and upper-cased). -/
def export_to_csv (g : RDFGraph) : List NodeRow × List EdgeRow :=
  let allUris := collectEntityNodes g
  let nodesData := allUris.map (nodeRowOf g)
  let edgesData := g.triples.filterMap (fun t =>
    if t.1.isUri && t.2.2.isUri then
      some (⟨t.1.str, t.2.2.str, strUpper (strReplaceChar (qname g t.2.1.str) ':' '_'), t.2.1.str⟩ : EdgeRow)
    else none)
  (nodesData, edgesData)

/-! Generic fold helpers. -/

/-- A property preserved by every step of a left fold holds of the result. -/
theorem foldl_preserves {σ ι : Type} (P : σ → Prop) (f : σ → ι → σ)
    (hf : ∀ s i, P s → P (f s i)) :
    ∀ (l : List ι) (s : σ), P s → P (l.foldl f s) := by
  intro l
  induction l with
  | nil => intro s hs; exact hs
  | cons a l ih => intro s hs; exact ih (f s a) (hf s a hs)

/-- Folding over a flatMap is the nested fold. -/
theorem foldl_flatMap {σ ι κ : Type} (l : List ι) (f : ι → List κ) (step : σ → κ → σ)
    (s : σ) :
    (l.flatMap f).foldl step s = l.foldl (fun acc i => (f i).foldl step acc) s := by
  induction l generalizing s with
  | nil => rfl
  | cons a l ih => simp [List.flatMap_cons, List.foldl_append, ih]

namespace NXGraph

variable {α β : Type}

theorem hasNode_eq_true_iff (G : NXGraph α β) (n : String) :
    G.hasNode n = true ↔ n ∈ G.nodeKeys := by
  unfold hasNode nodeKeys
  rw [List.any_eq_true]
  constructor
  · rintro ⟨p, hp, hk⟩
    rw [decide_eq_true_eq] at hk
    exact List.mem_map.mpr ⟨p, hp, hk⟩
  · intro hm
    obtain ⟨p, hp, hk⟩ := List.mem_map.mp hm
    refine ⟨p, hp, ?_⟩
    rw [decide_eq_true_eq]
    exact hk

@[simp]
theorem edges_addNode (G : NXGraph α β) (n : String) (a : α) :
    (G.addNode n a).edges = G.edges := by
  unfold addNode; split <;> rfl

@[simp]
theorem edges_ensureNode (G : NXGraph α β) (n : String) :
    (G.ensureNode n).edges = G.edges := by
  unfold ensureNode; split <;> rfl

theorem nodeKeys_addNode_of_has (G : NXGraph α β) (n : String) (a : α)
    (h : G.hasNode n = true) : (G.addNode n a).nodeKeys = G.nodeKeys := by
  unfold addNode
  rw [if_pos h]
  show (G.nodes.map _).map _ = _
  rw [List.map_map]
  apply List.map_congr_left
  intro p _
  by_cases hp : p.1 = n
  · simp [hp]
  · simp [hp]

theorem nodeKeys_addNode_of_not_has (G : NXGraph α β) (n : String) (a : α)
    (h : ¬ G.hasNode n = true) : (G.addNode n a).nodeKeys = G.nodeKeys ++ [n] := by
  unfold addNode
  rw [if_neg h]
  show (G.nodes ++ [(n, some a)]).map _ = _
  simp [nodeKeys]

theorem mem_nodeKeys_addNode (G : NXGraph α β) (n : String) (a : α) (m : String) :
    m ∈ (G.addNode n a).nodeKeys ↔ m = n ∨ m ∈ G.nodeKeys := by
  by_cases h : G.hasNode n = true
  · rw [nodeKeys_addNode_of_has G n a h]
    have hn : n ∈ G.nodeKeys := (hasNode_eq_true_iff G n).mp h
    constructor
    · intro hm
      exact Or.inr hm
    · rintro (rfl | hm)
      · exact hn
      · exact hm
  · rw [nodeKeys_addNode_of_not_has G n a h]
    simp [or_comm]

theorem nodeKeys_ensureNode_of_has (G : NXGraph α β) (n : String)
    (h : G.hasNode n = true) : (G.ensureNode n) = G := by
  unfold ensureNode; rw [if_pos h]

theorem nodeKeys_ensureNode_of_not_has (G : NXGraph α β) (n : String)
    (h : ¬ G.hasNode n = true) : (G.ensureNode n).nodeKeys = G.nodeKeys ++ [n] := by
  unfold ensureNode
  rw [if_neg h]
  simp [nodeKeys]

theorem mem_nodeKeys_ensureNode (G : NXGraph α β) (n : String) (m : String) :
    m ∈ (G.ensureNode n).nodeKeys ↔ m = n ∨ m ∈ G.nodeKeys := by
  by_cases h : G.hasNode n = true
  · rw [nodeKeys_ensureNode_of_has G n h]
    have hn : n ∈ G.nodeKeys := (hasNode_eq_true_iff G n).mp h
    constructor
    · intro hm
      exact Or.inr hm
    · rintro (rfl | hm)
      · exact hn
      · exact hm
  · rw [nodeKeys_ensureNode_of_not_has G n h]
    simp [or_comm]

theorem nodup_nodeKeys_addNode (G : NXGraph α β) (n : String) (a : α)
    (h : G.nodeKeys.Nodup) : (G.addNode n a).nodeKeys.Nodup := by
  by_cases hn : G.hasNode n = true
  · rw [nodeKeys_addNode_of_has G n a hn]; exact h
  · rw [nodeKeys_addNode_of_not_has G n a hn]
    have : n ∉ G.nodeKeys := fun hm => hn ((hasNode_eq_true_iff G n).mpr hm)
    simp [List.nodup_append, h, this]

theorem nodup_nodeKeys_ensureNode (G : NXGraph α β) (n : String)
    (h : G.nodeKeys.Nodup) : (G.ensureNode n).nodeKeys.Nodup := by
  by_cases hn : G.hasNode n = true
  · rw [nodeKeys_ensureNode_of_has G n hn]; exact h
  · rw [nodeKeys_ensureNode_of_not_has G n hn]
    have : n ∉ G.nodeKeys := fun hm => hn ((hasNode_eq_true_iff G n).mpr hm)
    simp [List.nodup_append, h, this]

theorem hasEdge_eq_true_iff (G : NXGraph α β) (u v : String) :
    G.hasEdge u v = true ↔ ∃ e ∈ G.edges, keyMatches e.1 u v = true := by
  unfold hasEdge
  exact List.any_eq_true

theorem nodes_addEdge (G : NXGraph α β) (u v : String) (b : β) :
    (G.addEdge u v b).nodes = ((G.ensureNode u).ensureNode v).nodes := by
  unfold addEdge; split <;> rfl

theorem mem_nodeKeys_addEdge (G : NXGraph α β) (u v : String) (b : β) (m : String) :
    m ∈ (G.addEdge u v b).nodeKeys ↔ m = v ∨ m = u ∨ m ∈ G.nodeKeys := by
  have h : (G.addEdge u v b).nodeKeys = ((G.ensureNode u).ensureNode v).nodeKeys := by
    unfold nodeKeys; rw [nodes_addEdge]
  rw [h, mem_nodeKeys_ensureNode, mem_nodeKeys_ensureNode]

theorem nodup_nodeKeys_addEdge (G : NXGraph α β) (u v : String) (b : β)
    (h : G.nodeKeys.Nodup) : (G.addEdge u v b).nodeKeys.Nodup := by
  have he : (G.addEdge u v b).nodeKeys = ((G.ensureNode u).ensureNode v).nodeKeys := by
    unfold nodeKeys; rw [nodes_addEdge]
  rw [he]
  exact nodup_nodeKeys_ensureNode _ v (nodup_nodeKeys_ensureNode G u h)

theorem keyMatches_iff (k : String × String) (u v : String) :
    keyMatches k u v = true ↔ (k.1 = u ∧ k.2 = v) ∨ (k.1 = v ∧ k.2 = u) := by
  simp [keyMatches]

theorem keyMatches_trans (k : String × String) (u v x y : String)
    (h1 : keyMatches k u v = true) (h2 : keyMatches (u, v) x y = true) :
    keyMatches k x y = true := by
  rw [keyMatches_iff] at h1 h2 ⊢
  rcases h1 with ⟨h1a, h1b⟩ | ⟨h1a, h1b⟩ <;>
    rcases h2 with ⟨h2a, h2b⟩ | ⟨h2a, h2b⟩ <;>
      simp_all

theorem edges_addEdge (G : NXGraph α β) (u v : String) (b : β) :
    (G.addEdge u v b).edges =
      if G.hasEdge u v = true then
        G.edges.map (fun e => if keyMatches e.1 u v then (e.1, b) else e)
      else
        G.edges ++ [((u, v), b)] := by
  have h : ((G.ensureNode u).ensureNode v).hasEdge u v = G.hasEdge u v := by
    unfold hasEdge; rw [edges_ensureNode, edges_ensureNode]
  have h2 : ((G.ensureNode u).ensureNode v).edges = G.edges := by
    rw [edges_ensureNode, edges_ensureNode]
  unfold addEdge
  rw [h, h2]
  split <;> simp

theorem hasEdge_addEdge (G : NXGraph α β) (u v : String) (b : β) (x y : String) :
    (G.addEdge u v b).hasEdge x y = true ↔
      keyMatches (u, v) x y = true ∨ G.hasEdge x y = true := by
  rw [hasEdge_eq_true_iff, edges_addEdge]
  by_cases h : G.hasEdge u v = true
  · rw [if_pos h]
    obtain ⟨e0, he0, hk0⟩ := (hasEdge_eq_true_iff G u v).mp h
    constructor
    · rintro ⟨e, he, hk⟩
      simp only [List.mem_map] at he
      obtain ⟨e1, he1, rfl⟩ := he
      by_cases hm : keyMatches e1.1 u v = true
      · rw [if_pos hm] at hk
        right
        exact (hasEdge_eq_true_iff G x y).mpr ⟨e1, he1, hk⟩
      · rw [if_neg hm] at hk
        right
        exact (hasEdge_eq_true_iff G x y).mpr ⟨e1, he1, hk⟩
    · rintro (hk | hGxy)
      · refine ⟨if keyMatches e0.1 u v then (e0.1, b) else e0,
          List.mem_map.mpr ⟨e0, he0, rfl⟩, ?_⟩
        rw [if_pos hk0]
        exact keyMatches_trans e0.1 u v x y hk0 hk
      · obtain ⟨e, he, hk⟩ := (hasEdge_eq_true_iff G x y).mp hGxy
        refine ⟨if keyMatches e.1 u v then (e.1, b) else e,
          List.mem_map.mpr ⟨e, he, rfl⟩, ?_⟩
        by_cases hm : keyMatches e.1 u v = true
        · rw [if_pos hm]
          exact hk
        · rw [if_neg hm]
          exact hk
  · rw [if_neg h]
    constructor
    · rintro ⟨e, he, hk⟩
      rcases List.mem_append.mp he with he | he
      · exact Or.inr ((hasEdge_eq_true_iff G x y).mpr ⟨e, he, hk⟩)
      · simp only [List.mem_singleton] at he
        subst he
        exact Or.inl hk
    · rintro (hk | hGxy)
      · exact ⟨((u, v), b), List.mem_append.mpr (Or.inr (List.mem_singleton.mpr rfl)), hk⟩
      · obtain ⟨e, he, hk⟩ := (hasEdge_eq_true_iff G x y).mp hGxy
        exact ⟨e, List.mem_append.mpr (Or.inl he), hk⟩

theorem edgeKeys_addEdge (G : NXGraph α β) (u v : String) (b : β) :
    ∀ e ∈ (G.addEdge u v b).edges, (∃ c, (e.1, c) ∈ G.edges) ∨ e.1 = (u, v) := by
  intro e he
  rw [edges_addEdge] at he
  by_cases h : G.hasEdge u v = true
  · rw [if_pos h] at he
    simp only [List.mem_map] at he
    obtain ⟨e1, he1, rfl⟩ := he
    by_cases hm : keyMatches e1.1 u v = true
    · rw [if_pos hm]; exact Or.inl ⟨e1.2, he1⟩
    · rw [if_neg hm]; exact Or.inl ⟨e1.2, he1⟩
  · rw [if_neg h] at he
    rcases List.mem_append.mp he with he | he
    · exact Or.inl ⟨e.2, he⟩
    · simp only [List.mem_singleton] at he
      subst he
      exact Or.inr rfl

theorem lookupAttr_update_self {α : Type} (l : List (String × Option α)) (n : String) (a : α)
    (hl : ∃ p ∈ l, p.1 = n) :
    lookupAttr (l.map (fun p => if p.1 = n then (n, some a) else p)) n = some a := by
  induction l with
  | nil => simp at hl
  | cons q l ih =>
    by_cases hq : q.1 = n
    · simp [lookupAttr, List.find?, hq]
    · obtain ⟨p, hp, hk⟩ := hl
      rcases List.mem_cons.mp hp with rfl | hp
      · exact absurd hk hq
      · have h1 : (decide (q.1 = n)) = false := by simp [hq]
        simp only [List.map_cons, if_neg hq, lookupAttr, List.find?, h1]
        exact ih ⟨p, hp, hk⟩

theorem lookupAttr_update_ne {α : Type} (l : List (String × Option α)) (n : String) (a : α)
    (m : String) (hm : m ≠ n) :
    lookupAttr (l.map (fun p => if p.1 = n then (n, some a) else p)) m = lookupAttr l m := by
  induction l with
  | nil => rfl
  | cons q l ih =>
    by_cases hq : q.1 = n
    · have h1 : (decide (n = m)) = false := decide_eq_false (fun hh => hm hh.symm)
      have h2 : (decide (q.1 = m)) = false := by
        rw [hq]
        exact decide_eq_false (fun hh => hm hh.symm)
      simp only [List.map_cons, if_pos hq, lookupAttr, List.find?, h1, h2]
      exact ih
    · simp only [List.map_cons, if_neg hq, lookupAttr, List.find?]
      cases hd : decide (q.1 = m) with
      | false => exact ih
      | true => rfl

theorem lookupAttr_append_of_found {α : Type} (l : List (String × Option α))
    (x : String × Option α) (m : String) (p : String × Option α)
    (hf : l.find? (fun q => decide (q.1 = m)) = some p) :
    lookupAttr (l ++ [x]) m = lookupAttr l m := by
  unfold lookupAttr
  rw [List.find?_append, hf]
  rfl

theorem lookupAttr_append_of_none {α : Type} (l : List (String × Option α))
    (x : String × Option α) (m : String)
    (hf : l.find? (fun q => decide (q.1 = m)) = none) :
    lookupAttr (l ++ [x]) m = lookupAttr [x] m := by
  unfold lookupAttr
  rw [List.find?_append, hf]
  rfl

theorem find?_key_none_of_not_has (G : NXGraph α β) (n : String)
    (h : ¬ G.hasNode n = true) :
    G.nodes.find? (fun p => decide (p.1 = n)) = none := by
  rw [List.find?_eq_none]
  intro p hp
  simp only [decide_eq_true_eq]
  intro hk
  unfold hasNode at h
  simp only [List.any_eq_true, decide_eq_true_eq] at h
  exact h ⟨p, hp, hk⟩

theorem attrOf_addNode (G : NXGraph α β) (n : String) (a : α) (m : String) :
    (G.addNode n a).attrOf m = if m = n then some a else G.attrOf m := by
  unfold addNode
  by_cases h : G.hasNode n = true
  · rw [if_pos h]
    by_cases hm : m = n
    · subst hm
      rw [if_pos rfl]
      show lookupAttr _ m = some a
      apply lookupAttr_update_self
      unfold hasNode at h
      simpa using h
    · rw [if_neg hm]
      exact lookupAttr_update_ne G.nodes n a m hm
  · rw [if_neg h]
    show lookupAttr (G.nodes ++ [(n, some a)]) m = _
    by_cases hm : m = n
    · subst hm
      rw [lookupAttr_append_of_none _ _ _ (find?_key_none_of_not_has G m h), if_pos rfl]
      simp [lookupAttr, List.find?]
    · rw [if_neg hm]
      cases hf : G.nodes.find? (fun p => decide (p.1 = m)) with
      | some p =>
        rw [lookupAttr_append_of_found _ _ _ p hf]
        rfl
      | none =>
        rw [lookupAttr_append_of_none _ _ _ hf]
        have h1 : (decide (n = m)) = false := decide_eq_false (fun hh => hm hh.symm)
        show lookupAttr [(n, some a)] m = G.attrOf m
        unfold attrOf lookupAttr
        rw [hf]
        simp [List.find?, h1]

theorem attrOf_ensureNode (G : NXGraph α β) (n : String) (m : String) :
    (G.ensureNode n).attrOf m = G.attrOf m := by
  unfold ensureNode
  by_cases h : G.hasNode n = true
  · rw [if_pos h]
  · rw [if_neg h]
    show lookupAttr (G.nodes ++ [(n, none)]) m = _
    cases hf : G.nodes.find? (fun p => decide (p.1 = m)) with
    | some p =>
      rw [lookupAttr_append_of_found _ _ _ p hf]
      rfl
    | none =>
      rw [lookupAttr_append_of_none _ _ _ hf]
      show lookupAttr [(n, none)] m = G.attrOf m
      unfold attrOf lookupAttr
      rw [hf]
      cases hd : decide (n = m) <;> simp [List.find?, hd]

theorem attrOf_addEdge (G : NXGraph α β) (u v : String) (b : β) (m : String) :
    (G.addEdge u v b).attrOf m = G.attrOf m := by
  have h : (G.addEdge u v b).attrOf m = ((G.ensureNode u).ensureNode v).attrOf m := by
    unfold attrOf
    rw [nodes_addEdge]
  rw [h, attrOf_ensureNode, attrOf_ensureNode]

theorem hasNode_congr (G H : NXGraph α β) (h : G.nodes = H.nodes) (n : String) :
    G.hasNode n = H.hasNode n := by
  unfold hasNode
  rw [h]

end NXGraph

/-! Lemmas about folds of addNode steps, shared by both projectors. -/

theorem mem_nodeKeys_foldl_addNode {α β : Type} (f : Term → α) :
    ∀ (l : List Term) (G0 : NXGraph α β) (m : String),
      m ∈ (l.foldl (fun acc t => acc.addNode t.str (f t)) G0).nodeKeys ↔
        m ∈ l.map Term.str ∨ m ∈ G0.nodeKeys := by
  intro l
  induction l with
  | nil => intro G0 m; simp
  | cons t l ih =>
    intro G0 m
    rw [List.foldl_cons, ih, List.map_cons, List.mem_cons, NXGraph.mem_nodeKeys_addNode]
    tauto

theorem nodup_nodeKeys_foldl_addNode {α β : Type} (f : Term → α) (l : List Term)
    (G0 : NXGraph α β) (h : G0.nodeKeys.Nodup) :
    (l.foldl (fun acc t => acc.addNode t.str (f t)) G0).nodeKeys.Nodup :=
  foldl_preserves (fun G => G.nodeKeys.Nodup) _
    (fun G t hG => NXGraph.nodup_nodeKeys_addNode G t.str (f t) hG) l G0 h

theorem edges_foldl_addNode {α β : Type} (f : Term → α) :
    ∀ (l : List Term) (G0 : NXGraph α β),
      (l.foldl (fun acc t => acc.addNode t.str (f t)) G0).edges = G0.edges := by
  intro l
  induction l with
  | nil => intro G0; rfl
  | cons t l ih =>
    intro G0
    rw [List.foldl_cons, ih, NXGraph.edges_addNode]

theorem attrOf_foldl_addNode_of_not_mem {α β : Type} (f : Term → α) :
    ∀ (l : List Term) (G0 : NXGraph α β) (m : String), m ∉ l.map Term.str →
      (l.foldl (fun acc t => acc.addNode t.str (f t)) G0).attrOf m = G0.attrOf m := by
  intro l
  induction l with
  | nil => intro G0 m _; rfl
  | cons t l ih =>
    intro G0 m hm
    rw [List.map_cons, List.mem_cons] at hm
    push_neg at hm
    rw [List.foldl_cons, ih _ m hm.2, NXGraph.attrOf_addNode, if_neg hm.1]

theorem attrOf_foldl_addNode_of_mem {α β : Type} (f : Term → α) :
    ∀ (l : List Term) (G0 : NXGraph α β) (m : String), m ∈ l.map Term.str →
      ∃ t, t ∈ l ∧ t.str = m ∧
        (l.foldl (fun acc t => acc.addNode t.str (f t)) G0).attrOf m = some (f t) := by
  intro l
  induction l with
  | nil => intro G0 m hm; simp at hm
  | cons t l ih =>
    intro G0 m hm
    rw [List.foldl_cons]
    by_cases h : m ∈ l.map Term.str
    · obtain ⟨t2, ht2, hstr, heq⟩ := ih _ m h
      exact ⟨t2, List.mem_cons_of_mem t ht2, hstr, heq⟩
    · have hmt : m = t.str := by
        rw [List.map_cons, List.mem_cons] at hm
        rcases hm with hm | hm
        · exact hm
        · exact absurd hm h
      refine ⟨t, List.mem_cons_self t l, hmt.symm, ?_⟩
      rw [attrOf_foldl_addNode_of_not_mem f l _ m h, NXGraph.attrOf_addNode, if_pos hmt]

/-! Lemmas about the triple-set accessors. -/

theorem mem_objects (g : RDFGraph) (s p o : Term) :
    o ∈ g.objects s p ↔ (s, p, o) ∈ g.triples := by
  unfold RDFGraph.objects
  rw [List.mem_map]
  constructor
  · rintro ⟨⟨a, b, c⟩, ht, rfl⟩
    rw [List.mem_filter] at ht
    obtain ⟨htm, hc⟩ := ht
    simp only [Bool.and_eq_true, decide_eq_true_eq] at hc
    obtain ⟨h1, h2⟩ := hc
    subst h1
    subst h2
    exact htm
  · intro ht
    refine ⟨(s, p, o), ?_, rfl⟩
    rw [List.mem_filter]
    refine ⟨ht, ?_⟩
    simp

theorem mem_subjects (g : RDFGraph) (p o s : Term) :
    s ∈ g.subjects p o ↔ (s, p, o) ∈ g.triples := by
  unfold RDFGraph.subjects
  rw [List.mem_map]
  constructor
  · rintro ⟨⟨a, b, c⟩, ht, rfl⟩
    rw [List.mem_filter] at ht
    obtain ⟨htm, hc⟩ := ht
    simp only [Bool.and_eq_true, decide_eq_true_eq] at hc
    obtain ⟨h1, h2⟩ := hc
    subst h1
    subst h2
    exact htm
  · intro ht
    refine ⟨(s, p, o), ?_, rfl⟩
    rw [List.mem_filter]
    refine ⟨ht, ?_⟩
    simp

theorem mem_vehiclesOf (g : RDFGraph) (v : Term) :
    v ∈ vehiclesOf g ↔ (v, RDF_type, EX_VehicleModel) ∈ g.triples := by
  unfold vehiclesOf
  rw [List.mem_dedup, mem_subjects]

theorem mem_sensorsOf (g : RDFGraph) (s : Term) :
    s ∈ sensorsOf g ↔ (s, RDF_type, EX_SensorModel) ∈ g.triples := by
  unfold sensorsOf
  rw [List.mem_dedup, mem_subjects]

theorem mem_collectEntityNodes (g : RDFGraph) (t : Term) :
    t ∈ collectEntityNodes g ↔
      t.isUri = true ∧ ∃ tr ∈ g.triples, t = tr.1 ∨ t = tr.2.2 := by
  unfold collectEntityNodes
  rw [List.mem_dedup, List.mem_filter, List.mem_flatten]
  constructor
  · rintro ⟨⟨l2, hl2, htl2⟩, hu⟩
    obtain ⟨tr, htr, rfl⟩ := List.mem_map.mp hl2
    refine ⟨hu, tr, htr, ?_⟩
    rcases List.mem_cons.mp htl2 with h | h
    · exact Or.inl h
    · exact Or.inr (List.mem_singleton.mp h)
  · rintro ⟨hu, tr, htr, hor⟩
    refine ⟨⟨[tr.1, tr.2.2], List.mem_map.mpr ⟨tr, htr, rfl⟩, ?_⟩, hu⟩
    rcases hor with h | h
    · rw [h]; exact List.mem_cons_self _ _
    · rw [h]; exact List.mem_cons_of_mem _ (List.mem_singleton.mpr rfl)

theorem value_eq_none (g : RDFGraph) (s p : Term)
    (h : ∀ o, (s, p, o) ∉ g.triples) : g.value s p = none := by
  unfold RDFGraph.value
  have hf : g.triples.find? (fun t => decide (t.1 = s) && decide (t.2.1 = p)) = none := by
    rw [List.find?_eq_none]
    rintro ⟨a, b, c⟩ ht hc
    simp only [Bool.and_eq_true, decide_eq_true_eq] at hc
    obtain ⟨h1, h2⟩ := hc
    subst h1
    subst h2
    exact h c ht
  rw [hf]
  rfl

theorem mem_compatPairs (g : RDFGraph) (p : Term × Term) :
    p ∈ compatPairs g ↔
      (p.1, RDF_type, EX_VehicleModel) ∈ g.triples ∧
        (p.1, EX_compatibleWithModel, p.2) ∈ g.triples := by
  unfold compatPairs
  rw [List.mem_flatMap]
  constructor
  · rintro ⟨v, hv, hp⟩
    obtain ⟨o, ho, rfl⟩ := List.mem_map.mp hp
    exact ⟨(mem_vehiclesOf g v).mp hv, (mem_objects g v _ o).mp ho⟩
  · rintro ⟨h1, h2⟩
    exact ⟨p.1, (mem_vehiclesOf g p.1).mpr h1,
      List.mem_map.mpr ⟨p.2, (mem_objects g p.1 _ p.2).mpr h2, rfl⟩⟩

/-! Entity-graph structure lemmas. -/

theorem mem_nodeKeys_entityBase (g : RDFGraph) (m : String) :
    m ∈ (entityBase g).nodeKeys ↔ m ∈ (collectEntityNodes g).map Term.str := by
  unfold entityBase
  rw [mem_nodeKeys_foldl_addNode]
  simp [NXGraph.empty, NXGraph.nodeKeys]

theorem nodes_entityEdgeStep (g : RDFGraph) (G0 : NXGraph EntityAttr EdgeAttr) (t : Triple)
    (h : t.1.isUri = true → t.2.2.isUri = true →
      G0.hasNode t.1.str = true ∧ G0.hasNode t.2.2.str = true) :
    (entityEdgeStep g G0 t).nodes = G0.nodes := by
  unfold entityEdgeStep
  by_cases hc : (t.1.isUri && t.2.2.isUri) = true
  · rw [if_pos hc]
    rw [Bool.and_eq_true] at hc
    obtain ⟨h1, h2⟩ := h hc.1 hc.2
    rw [NXGraph.nodes_addEdge, NXGraph.nodeKeys_ensureNode_of_has _ _ h1,
      NXGraph.nodeKeys_ensureNode_of_has _ _ h2]
  · rw [if_neg hc]

theorem nodes_foldl_entityEdgeStep (g : RDFGraph) :
    ∀ (l : List Triple) (G0 : NXGraph EntityAttr EdgeAttr),
      (∀ t ∈ l, t.1.isUri = true → t.2.2.isUri = true →
        G0.hasNode t.1.str = true ∧ G0.hasNode t.2.2.str = true) →
      (l.foldl (entityEdgeStep g) G0).nodes = G0.nodes := by
  intro l
  induction l with
  | nil => intro G0 _; rfl
  | cons t l ih =>
    intro G0 h
    have hstep : (entityEdgeStep g G0 t).nodes = G0.nodes :=
      nodes_entityEdgeStep g G0 t (h t (List.mem_cons_self t l))
    have h2 : ∀ q ∈ l, q.1.isUri = true → q.2.2.isUri = true →
        (entityEdgeStep g G0 t).hasNode q.1.str = true ∧
          (entityEdgeStep g G0 t).hasNode q.2.2.str = true := by
      intro q hq hu1 hu2
      rw [NXGraph.hasNode_congr _ _ hstep, NXGraph.hasNode_congr _ _ hstep]
      exact h q (List.mem_cons_of_mem t hq) hu1 hu2
    rw [List.foldl_cons, ih _ h2, hstep]

theorem nodes_to_networkx_entity_graph (g : RDFGraph) :
    (to_networkx_entity_graph g).nodes = (entityBase g).nodes := by
  unfold to_networkx_entity_graph
  apply nodes_foldl_entityEdgeStep
  intro t ht h1 h2
  constructor
  · rw [NXGraph.hasNode_eq_true_iff, mem_nodeKeys_entityBase]
    exact List.mem_map.mpr
      ⟨t.1, (mem_collectEntityNodes g t.1).mpr ⟨h1, t, ht, Or.inl rfl⟩, rfl⟩
  · rw [NXGraph.hasNode_eq_true_iff, mem_nodeKeys_entityBase]
    exact List.mem_map.mpr
      ⟨t.2.2, (mem_collectEntityNodes g t.2.2).mpr ⟨h2, t, ht, Or.inr rfl⟩, rfl⟩

theorem mem_nodeKeys_entity_graph (g : RDFGraph) (m : String) :
    m ∈ (to_networkx_entity_graph g).nodeKeys ↔
      m ∈ (collectEntityNodes g).map Term.str := by
  unfold NXGraph.nodeKeys
  rw [nodes_to_networkx_entity_graph]
  exact mem_nodeKeys_entityBase g m

theorem edges_origin_foldl_entityEdgeStep (g : RDFGraph) :
    ∀ (l : List Triple) (G0 : NXGraph EntityAttr EdgeAttr)
      (e : (String × String) × EdgeAttr),
      e ∈ (l.foldl (entityEdgeStep g) G0).edges →
      (∃ c, (e.1, c) ∈ G0.edges) ∨
        ∃ t ∈ l, t.1.isUri = true ∧ t.2.2.isUri = true ∧ e.1 = (t.1.str, t.2.2.str) := by
  intro l
  induction l with
  | nil =>
    intro G0 e he
    exact Or.inl ⟨e.2, he⟩
  | cons t l ih =>
    intro G0 e he
    rw [List.foldl_cons] at he
    rcases ih _ e he with ⟨c, hc⟩ | ⟨t2, ht2, hu1, hu2, hk⟩
    · unfold entityEdgeStep at hc
      by_cases hcond : (t.1.isUri && t.2.2.isUri) = true
      · rw [if_pos hcond] at hc
        rcases NXGraph.edgeKeys_addEdge G0 _ _ _ (e.1, c) hc with ⟨c2, hc2⟩ | hk
        · exact Or.inl ⟨c2, hc2⟩
        · rw [Bool.and_eq_true] at hcond
          exact Or.inr ⟨t, List.mem_cons_self t l, hcond.1, hcond.2, hk⟩
      · rw [if_neg hcond] at hc
        exact Or.inl ⟨c, hc⟩
    · exact Or.inr ⟨t2, List.mem_cons_of_mem t ht2, hu1, hu2, hk⟩

theorem edges_entityBase (g : RDFGraph) : (entityBase g).edges = [] := by
  unfold entityBase
  rw [edges_foldl_addNode]
  rfl

/-! Edge endpoints always lie in the node set (networkx auto-add plus the
two-pass structure of both projectors). -/

def edgeEndpointsOk {α β : Type} (G : NXGraph α β) : Prop :=
  ∀ e ∈ G.edges, e.1.1 ∈ G.nodeKeys ∧ e.1.2 ∈ G.nodeKeys

theorem edgeEndpointsOk_empty {α β : Type} : edgeEndpointsOk (NXGraph.empty : NXGraph α β) := by
  intro e he
  simp [NXGraph.empty] at he

theorem edgeEndpointsOk_addNode {α β : Type} (G : NXGraph α β) (n : String) (a : α)
    (h : edgeEndpointsOk G) : edgeEndpointsOk (G.addNode n a) := by
  intro e he
  rw [NXGraph.edges_addNode] at he
  obtain ⟨h1, h2⟩ := h e he
  exact ⟨(NXGraph.mem_nodeKeys_addNode G n a _).mpr (Or.inr h1),
    (NXGraph.mem_nodeKeys_addNode G n a _).mpr (Or.inr h2)⟩

theorem edgeEndpointsOk_addEdge {α β : Type} (G : NXGraph α β) (u v : String) (b : β)
    (h : edgeEndpointsOk G) : edgeEndpointsOk (G.addEdge u v b) := by
  intro e he
  rcases NXGraph.edgeKeys_addEdge G u v b e he with ⟨c, hc⟩ | hk
  · obtain ⟨h1, h2⟩ := h (e.1, c) hc
    exact ⟨(NXGraph.mem_nodeKeys_addEdge G u v b _).mpr (Or.inr (Or.inr h1)),
      (NXGraph.mem_nodeKeys_addEdge G u v b _).mpr (Or.inr (Or.inr h2))⟩
  · rw [hk]
    exact ⟨(NXGraph.mem_nodeKeys_addEdge G u v b u).mpr (Or.inr (Or.inl rfl)),
      (NXGraph.mem_nodeKeys_addEdge G u v b v).mpr (Or.inl rfl)⟩

theorem edgeEndpointsOk_entity (g : RDFGraph) :
    edgeEndpointsOk (to_networkx_entity_graph g) := by
  unfold to_networkx_entity_graph entityBase
  apply foldl_preserves edgeEndpointsOk (entityEdgeStep g)
  · intro G t hG
    unfold entityEdgeStep
    by_cases hc : (t.1.isUri && t.2.2.isUri) = true
    · rw [if_pos hc]
      exact edgeEndpointsOk_addEdge G _ _ _ hG
    · rw [if_neg hc]
      exact hG
  · apply foldl_preserves edgeEndpointsOk _
      (fun G t hG => edgeEndpointsOk_addNode G t.str (entityAttrOf g t) hG)
    exact edgeEndpointsOk_empty

theorem edgeEndpointsOk_bipartite (g : RDFGraph) :
    edgeEndpointsOk (to_networkx_bipartite_graph g) := by
  unfold to_networkx_bipartite_graph bipBase
  apply foldl_preserves edgeEndpointsOk _ ?_ _ _ ?_
  · intro G v hG
    apply foldl_preserves edgeEndpointsOk _ ?_ _ _ hG
    intro G2 s hG2
    unfold bipEdgeStep
    by_cases hc : G2.hasNode (v, s).2.str = true
    · rw [if_pos hc]
      exact edgeEndpointsOk_addEdge G2 _ _ _ hG2
    · rw [if_neg hc]
      exact hG2
  · apply foldl_preserves edgeEndpointsOk _
      (fun G t hG => edgeEndpointsOk_addNode G t.str (sensorAttrOf g t) hG)
    apply foldl_preserves edgeEndpointsOk _
      (fun G t hG => edgeEndpointsOk_addNode G t.str (vehicleAttrOf g t) hG)
    exact edgeEndpointsOk_empty

/-! Bipartite-graph structure lemmas. -/

theorem bip_eq_pairs_foldl (g : RDFGraph) :
    to_networkx_bipartite_graph g = (compatPairs g).foldl bipEdgeStep (bipBase g) := by
  unfold to_networkx_bipartite_graph compatPairs
  rw [foldl_flatMap]
  congr 1
  funext acc v
  rw [List.foldl_map]

theorem mem_nodeKeys_bipBase (g : RDFGraph) (m : String) :
    m ∈ (bipBase g).nodeKeys ↔
      m ∈ (vehiclesOf g).map Term.str ∨ m ∈ (sensorsOf g).map Term.str := by
  unfold bipBase
  rw [mem_nodeKeys_foldl_addNode, mem_nodeKeys_foldl_addNode]
  have hempty : m ∈ (NXGraph.empty : NXGraph BipAttr String).nodeKeys ↔ False := by
    simp [NXGraph.empty, NXGraph.nodeKeys]
  rw [hempty]
  tauto

theorem sideOf_bipBase_sensor (g : RDFGraph) (m : String)
    (hm : m ∈ (sensorsOf g).map Term.str) :
    sideOf (bipBase g) m = some 1 := by
  unfold bipBase sideOf
  obtain ⟨t, ht, hstr, heq⟩ :=
    attrOf_foldl_addNode_of_mem (sensorAttrOf g) (sensorsOf g) _ m hm
  rw [heq]
  rfl

theorem sideOf_bipBase_vehicle (g : RDFGraph) (m : String)
    (hm : m ∈ (vehiclesOf g).map Term.str) (hns : m ∉ (sensorsOf g).map Term.str) :
    sideOf (bipBase g) m = some 0 := by
  unfold bipBase sideOf
  rw [attrOf_foldl_addNode_of_not_mem (sensorAttrOf g) (sensorsOf g) _ m hns]
  obtain ⟨t, ht, hstr, heq⟩ :=
    attrOf_foldl_addNode_of_mem (vehicleAttrOf g) (vehiclesOf g) NXGraph.empty m hm
  rw [heq]
  rfl

theorem nodes_bipEdgeStep (G0 : NXGraph BipAttr String) (p : Term × Term)
    (hp : G0.hasNode p.1.str = true) :
    (bipEdgeStep G0 p).nodes = G0.nodes := by
  unfold bipEdgeStep
  by_cases hc : G0.hasNode p.2.str = true
  · rw [if_pos hc, NXGraph.nodes_addEdge, NXGraph.nodeKeys_ensureNode_of_has _ _ hp,
      NXGraph.nodeKeys_ensureNode_of_has _ _ hc]
  · rw [if_neg hc]

theorem bipEdgeFold_nodes :
    ∀ (ps : List (Term × Term)) (G0 : NXGraph BipAttr String),
      (∀ p ∈ ps, G0.hasNode p.1.str = true) →
      (ps.foldl bipEdgeStep G0).nodes = G0.nodes := by
  intro ps
  induction ps with
  | nil => intro G0 _; rfl
  | cons p ps ih =>
    intro G0 h
    have hstep : (bipEdgeStep G0 p).nodes = G0.nodes :=
      nodes_bipEdgeStep G0 p (h p (List.mem_cons_self p ps))
    have h2 : ∀ q ∈ ps, (bipEdgeStep G0 p).hasNode q.1.str = true := by
      intro q hq
      rw [NXGraph.hasNode_congr _ _ hstep]
      exact h q (List.mem_cons_of_mem p hq)
    rw [List.foldl_cons, ih _ h2, hstep]

theorem hasEdge_bipEdgeStep (G0 : NXGraph BipAttr String) (p : Term × Term) (x y : String) :
    (bipEdgeStep G0 p).hasEdge x y = true ↔
      (G0.hasNode p.2.str = true ∧
        NXGraph.keyMatches (p.1.str, p.2.str) x y = true) ∨ G0.hasEdge x y = true := by
  unfold bipEdgeStep
  by_cases hc : G0.hasNode p.2.str = true
  · rw [if_pos hc, NXGraph.hasEdge_addEdge]
    constructor
    · rintro (hk | he)
      · exact Or.inl ⟨hc, hk⟩
      · exact Or.inr he
    · rintro (⟨_, hk⟩ | he)
      · exact Or.inl hk
      · exact Or.inr he
  · rw [if_neg hc]
    constructor
    · intro he
      exact Or.inr he
    · rintro (⟨hcc, _⟩ | he)
      · exact absurd hcc hc
      · exact he

theorem bipEdgeFold_hasEdge :
    ∀ (ps : List (Term × Term)) (G0 : NXGraph BipAttr String),
      (∀ p ∈ ps, G0.hasNode p.1.str = true) →
      ∀ x y, (ps.foldl bipEdgeStep G0).hasEdge x y = true ↔
        (∃ p ∈ ps, G0.hasNode p.2.str = true ∧
          NXGraph.keyMatches (p.1.str, p.2.str) x y = true) ∨ G0.hasEdge x y = true := by
  intro ps
  induction ps with
  | nil =>
    intro G0 h x y
    simp
  | cons p ps ih =>
    intro G0 h x y
    have hstep : (bipEdgeStep G0 p).nodes = G0.nodes :=
      nodes_bipEdgeStep G0 p (h p (List.mem_cons_self p ps))
    have hcong : ∀ n, (bipEdgeStep G0 p).hasNode n = G0.hasNode n :=
      fun n => NXGraph.hasNode_congr _ _ hstep n
    have h2 : ∀ q ∈ ps, (bipEdgeStep G0 p).hasNode q.1.str = true := by
      intro q hq
      rw [hcong]
      exact h q (List.mem_cons_of_mem p hq)
    rw [List.foldl_cons, ih _ h2 x y]
    simp only [hcong]
    rw [hasEdge_bipEdgeStep]
    simp only [List.mem_cons]
    constructor
    · rintro (⟨q, hq, hcnd⟩ | (⟨hn, hk⟩ | he))
      · exact Or.inl ⟨q, Or.inr hq, hcnd⟩
      · exact Or.inl ⟨p, Or.inl rfl, hn, hk⟩
      · exact Or.inr he
    · rintro (⟨q, hq | hq, hcnd⟩ | he)
      · subst hq
        exact Or.inr (Or.inl hcnd)
      · exact Or.inl ⟨q, hq, hcnd⟩
      · exact Or.inr (Or.inr he)

theorem bipEdgeFold_edges_origin :
    ∀ (ps : List (Term × Term)) (G0 : NXGraph BipAttr String),
      (∀ p ∈ ps, G0.hasNode p.1.str = true) →
      ∀ e ∈ (ps.foldl bipEdgeStep G0).edges,
        (∃ c, (e.1, c) ∈ G0.edges) ∨
          ∃ p ∈ ps, G0.hasNode p.2.str = true ∧ e.1 = (p.1.str, p.2.str) := by
  intro ps
  induction ps with
  | nil =>
    intro G0 _ e he
    exact Or.inl ⟨e.2, he⟩
  | cons p ps ih =>
    intro G0 h e he
    have hstep : (bipEdgeStep G0 p).nodes = G0.nodes :=
      nodes_bipEdgeStep G0 p (h p (List.mem_cons_self p ps))
    have hcong : ∀ n, (bipEdgeStep G0 p).hasNode n = G0.hasNode n :=
      fun n => NXGraph.hasNode_congr _ _ hstep n
    have h2 : ∀ q ∈ ps, (bipEdgeStep G0 p).hasNode q.1.str = true := by
      intro q hq
      rw [hcong]
      exact h q (List.mem_cons_of_mem p hq)
    rw [List.foldl_cons] at he
    rcases ih _ h2 e he with ⟨c, hc⟩ | ⟨q, hq, hn, hk⟩
    · unfold bipEdgeStep at hc
      by_cases hcond : G0.hasNode p.2.str = true
      · rw [if_pos hcond] at hc
        rcases NXGraph.edgeKeys_addEdge G0 _ _ _ (e.1, c) hc with ⟨c2, hc2⟩ | hk
        · exact Or.inl ⟨c2, hc2⟩
        · exact Or.inr ⟨p, List.mem_cons_self p ps, hcond, hk⟩
      · rw [if_neg hcond] at hc
        exact Or.inl ⟨c, hc⟩
    · rw [hcong] at hn
      exact Or.inr ⟨q, List.mem_cons_of_mem p hq, hn, hk⟩

theorem compatPairs_first_in_bipBase (g : RDFGraph) :
    ∀ p ∈ compatPairs g, (bipBase g).hasNode p.1.str = true := by
  intro p hp
  obtain ⟨h1, _⟩ := (mem_compatPairs g p).mp hp
  rw [NXGraph.hasNode_eq_true_iff, mem_nodeKeys_bipBase]
  exact Or.inl (List.mem_map.mpr ⟨p.1, (mem_vehiclesOf g p.1).mpr h1, rfl⟩)

theorem nodes_to_networkx_bipartite_graph (g : RDFGraph) :
    (to_networkx_bipartite_graph g).nodes = (bipBase g).nodes := by
  rw [bip_eq_pairs_foldl]
  exact bipEdgeFold_nodes (compatPairs g) (bipBase g) (compatPairs_first_in_bipBase g)

theorem edges_bipBase (g : RDFGraph) : (bipBase g).edges = [] := by
  unfold bipBase
  rw [edges_foldl_addNode, edges_foldl_addNode]
  rfl

theorem sideOf_bipartite_eq_base (g : RDFGraph) (m : String) :
    sideOf (to_networkx_bipartite_graph g) m = sideOf (bipBase g) m := by
  unfold sideOf NXGraph.attrOf
  rw [nodes_to_networkx_bipartite_graph]

/-! Label and type resolution lemmas. -/

theorem normalizeUri_eq_bracket (g : RDFGraph) (u : String)
    (hb : ∀ ns loc, splitUri u = some (ns, loc) → prefixFor g ns = none) :
    normalizeUri g u = "<" ++ u ++ ">" := by
  unfold normalizeUri
  cases hs : splitUri u with
  | none => rfl
  | some q =>
    obtain ⟨ns, loc⟩ := q
    dsimp only
    rw [hb ns loc hs]

theorem strStartsWith_bracket (u : String) :
    strStartsWith ("<" ++ u ++ ">") "<" = true := by
  unfold strStartsWith
  rw [decide_eq_true_eq]
  show (("<" ++ u ++ ">").data.take ("<".data.length)) = "<".data
  rw [String.data_append, String.data_append]
  rfl

theorem get_type_label_of_no_type (g : RDFGraph) (u : Term)
    (h : ∀ o, (u, RDF_type, o) ∉ g.triples) :
    RdfUtils.get_type_label g u = "Resource" := by
  unfold RdfUtils.get_type_label
  rw [value_eq_none g u RDF_type h]

theorem Term.eq_uri_of_isUri (t : Term) (h : t.isUri = true) : t = Term.uri t.str := by
  cases t with
  | uri s => rfl
  | bnode s => exact absurd h (by simp [Term.isUri])
  | lit s => exact absurd h (by simp [Term.isUri])

/-! Concrete example graphs used by witnesses and counterexamples. -/

/-- The Scenario A graph of the specification, extended with one locatedIn
triple whose object has no type and is never a subject. -/
def exampleGraphA : RDFGraph :=
  ⟨[(.uri "http://example.com/vehicle/V1", RDF_type, EX_VehicleModel),
    (.uri "http://example.com/vehicle/V1", RDFS_label, .lit "Car A"),
    (.uri "http://example.com/sensor/S1", RDF_type, EX_SensorModel),
    (.uri "http://example.com/sensor/S1", RDFS_label, .lit "Sensor A"),
    (.uri "http://example.com/vehicle/V1", EX_compatibleWithModel, .uri "http://example.com/sensor/S1"),
    (.uri "http://example.com/sensor/S1", .uri "http://example.com/ontology/locatedIn",
      .uri "http://example.com/place/Bangalore")],
   NS_MAP⟩

/-- A graph where one vehicle is declared compatible with another vehicle. -/
def exampleGraphVV : RDFGraph :=
  ⟨[(.uri "http://example.com/vehicle/V1", RDF_type, EX_VehicleModel),
    (.uri "http://example.com/vehicle/V2", RDF_type, EX_VehicleModel),
    (.uri "http://example.com/vehicle/V1", EX_compatibleWithModel,
      .uri "http://example.com/vehicle/V2")],
   NS_MAP⟩

/-! The claims. -/

/-- C3: every URI reference occurring as subject or object of some triple is
a node of the entity graph, and the node identifiers are pairwise distinct,
so the identifier appears exactly once in the node set. -/
theorem node_completeness (g : RDFGraph) (t : Triple) (ht : t ∈ g.triples) (s : String)
    (hs : t.1 = Term.uri s ∨ t.2.2 = Term.uri s) :
    s ∈ (to_networkx_entity_graph g).nodeKeys ∧
      (to_networkx_entity_graph g).nodeKeys.Nodup := by
  constructor
  · rw [mem_nodeKeys_entity_graph]
    rcases hs with h | h
    · exact List.mem_map.mpr
        ⟨Term.uri s, (mem_collectEntityNodes g _).mpr ⟨rfl, t, ht, Or.inl h.symm⟩, rfl⟩
    · exact List.mem_map.mpr
        ⟨Term.uri s, (mem_collectEntityNodes g _).mpr ⟨rfl, t, ht, Or.inr h.symm⟩, rfl⟩
  · have hkeys : (to_networkx_entity_graph g).nodeKeys = (entityBase g).nodeKeys := by
      unfold NXGraph.nodeKeys
      rw [nodes_to_networkx_entity_graph]
    rw [hkeys]
    unfold entityBase
    apply nodup_nodeKeys_foldl_addNode
    simp [NXGraph.empty, NXGraph.nodeKeys]

/-- C3 witness: the subject of the first triple of the example graph is a
node of its entity graph, exactly once. -/
theorem node_completeness_witness :
    "http://example.com/vehicle/V1" ∈ (to_networkx_entity_graph exampleGraphA).nodeKeys ∧
      (to_networkx_entity_graph exampleGraphA).nodeKeys.Nodup :=
  node_completeness exampleGraphA
    (.uri "http://example.com/vehicle/V1", RDF_type, EX_VehicleModel) (by decide)
    "http://example.com/vehicle/V1" (Or.inl rfl)

/-- C4: both endpoints of every edge of the entity projection and of the
bipartite projection are members of that graph's node set. -/
theorem edge_soundness (g : RDFGraph) :
    (∀ e ∈ (to_networkx_entity_graph g).edges,
      e.1.1 ∈ (to_networkx_entity_graph g).nodeKeys ∧
        e.1.2 ∈ (to_networkx_entity_graph g).nodeKeys) ∧
    (∀ e ∈ (to_networkx_bipartite_graph g).edges,
      e.1.1 ∈ (to_networkx_bipartite_graph g).nodeKeys ∧
        e.1.2 ∈ (to_networkx_bipartite_graph g).nodeKeys) :=
  ⟨edgeEndpointsOk_entity g, edgeEndpointsOk_bipartite g⟩

/-- C4 witness: the endpoints of a concrete entity-graph edge of the example
graph are nodes of that graph. -/
theorem edge_soundness_witness :
    "http://example.com/vehicle/V1" ∈ (to_networkx_entity_graph exampleGraphA).nodeKeys ∧
      "http://example.com/ontology/VehicleModel" ∈
        (to_networkx_entity_graph exampleGraphA).nodeKeys :=
  (edge_soundness exampleGraphA).1
    (("http://example.com/vehicle/V1", "http://example.com/ontology/VehicleModel"),
      ⟨"rdf:type", "http://www.w3.org/1999/02/22-rdf-syntax-ns#type"⟩)
    (by decide)

/-- C9: on an empty triple set all three operations return empty node and
edge collections without failing. -/
theorem empty_triple_set_ops (bs : List (String × String)) :
    to_networkx_entity_graph ⟨[], bs⟩ = NXGraph.empty ∧
    to_networkx_bipartite_graph ⟨[], bs⟩ = NXGraph.empty ∧
    export_to_csv ⟨[], bs⟩ = ([], []) :=
  ⟨rfl, rfl, rfl⟩

/-- C9 witness: the empty triple set under the project bindings. -/
theorem empty_triple_set_ops_witness :
    to_networkx_entity_graph ⟨[], NS_MAP⟩ = NXGraph.empty ∧
    to_networkx_bipartite_graph ⟨[], NS_MAP⟩ = NXGraph.empty ∧
    export_to_csv ⟨[], NS_MAP⟩ = ([], []) :=
  empty_triple_set_ops NS_MAP

/-- C1 counterexample: in a graph where one vehicle is declared compatible
with another vehicle, the bipartite projection contains an edge both of
whose endpoints are tagged bipartite=0, so bipartite purity fails for a raw
triple set the claim quantifies over. -/
theorem bipartite_purity_counterexample :
    (("http://example.com/vehicle/V1", "http://example.com/vehicle/V2"), "compatibleWith")
        ∈ (to_networkx_bipartite_graph exampleGraphVV).edges ∧
    sideOf (to_networkx_bipartite_graph exampleGraphVV) "http://example.com/vehicle/V1" =
        some 0 ∧
    sideOf (to_networkx_bipartite_graph exampleGraphVV) "http://example.com/vehicle/V2" =
        some 0 := by
  refine ⟨?_, ?_, ?_⟩ <;> decide

/-- C1 (amended): provided no resource string is declared both a
VehicleModel and a SensorModel, and no compatibleWithModel object of a
vehicle shares its string with a declared vehicle, every edge of the
bipartite projection runs from a node tagged side 0 to a node tagged
side 1. -/
theorem bipartite_purity (g : RDFGraph)
    (H1 : ((vehiclesOf g).all
      (fun a => (sensorsOf g).all (fun b => a.str != b.str))) = true)
    (H2 : ((compatPairs g).all
      (fun p => (vehiclesOf g).all (fun w => p.2.str != w.str))) = true) :
    ∀ e ∈ (to_networkx_bipartite_graph g).edges,
      sideOf (to_networkx_bipartite_graph g) e.1.1 = some 0 ∧
        sideOf (to_networkx_bipartite_graph g) e.1.2 = some 1 := by
  intro e he
  rw [List.all_eq_true] at H1 H2
  rw [bip_eq_pairs_foldl] at he
  rcases bipEdgeFold_edges_origin (compatPairs g) (bipBase g)
      (compatPairs_first_in_bipBase g) e he with ⟨c, hc⟩ | ⟨p, hp, hn, hk⟩
  · rw [edges_bipBase] at hc
    simp at hc
  · obtain ⟨hveh, hcompat⟩ := (mem_compatPairs g p).mp hp
    have hv1 : p.1 ∈ vehiclesOf g := (mem_vehiclesOf g p.1).mpr hveh
    rw [hk, sideOf_bipartite_eq_base, sideOf_bipartite_eq_base]
    constructor
    · apply sideOf_bipBase_vehicle
      · exact List.mem_map.mpr ⟨p.1, hv1, rfl⟩
      · intro hmem
        obtain ⟨b, hb, hbs⟩ := List.mem_map.mp hmem
        have := H1 p.1 hv1
        rw [List.all_eq_true] at this
        have hne := this b hb
        rw [bne_iff_ne] at hne
        exact hne hbs.symm
    · have hmem := (NXGraph.hasNode_eq_true_iff _ _).mp hn
      rw [mem_nodeKeys_bipBase] at hmem
      rcases hmem with hv | hs
      · obtain ⟨w, hw, hws⟩ := List.mem_map.mp hv
        have := H2 p hp
        rw [List.all_eq_true] at this
        have hne := this w hw
        rw [bne_iff_ne] at hne
        exact absurd hws.symm hne
      · exact sideOf_bipBase_sensor g p.2.str hs

/-- C1 witness: on the Scenario A graph the hypotheses hold and the unique
bipartite edge runs from the side-0 vehicle to the side-1 sensor. -/
theorem bipartite_purity_witness :
    sideOf (to_networkx_bipartite_graph exampleGraphA) "http://example.com/vehicle/V1" =
        some 0 ∧
    sideOf (to_networkx_bipartite_graph exampleGraphA) "http://example.com/sensor/S1" =
        some 1 :=
  bipartite_purity exampleGraphA (by decide) (by decide)
    (("http://example.com/vehicle/V1", "http://example.com/sensor/S1"), "compatibleWith")
    (by decide)

/-- C2 counterexample: a compatibleWithModel triple between two vehicles
produces an edge although its target is not in the side-1 (SensorModel)
node set, which is empty here. -/
theorem bipartite_edge_iff_counterexample :
    (to_networkx_bipartite_graph exampleGraphVV).hasEdge
        "http://example.com/vehicle/V1" "http://example.com/vehicle/V2" = true ∧
    sensorsOf exampleGraphVV = [] := by
  refine ⟨?_, ?_⟩ <;> decide

/-- C2 (amended): an undirected edge between a and b exists in the
bipartite projection iff, for some orientation, a vehicle asserts
compatibleWithModel to the other endpoint and that endpoint's string is a
node of the graph, vehicle or sensor alike; a compatibility triple whose
object is outside the whole node set yields no edge. -/
theorem bipartite_edge_iff (g : RDFGraph) (a b : String) :
    (to_networkx_bipartite_graph g).hasEdge a b = true ↔
      ∃ v o : Term, (v, RDF_type, EX_VehicleModel) ∈ g.triples ∧
        (v, EX_compatibleWithModel, o) ∈ g.triples ∧
        (∃ w : Term, ((w, RDF_type, EX_VehicleModel) ∈ g.triples ∨
            (w, RDF_type, EX_SensorModel) ∈ g.triples) ∧ o.str = w.str) ∧
        ((a = v.str ∧ b = o.str) ∨ (a = o.str ∧ b = v.str)) := by
  rw [bip_eq_pairs_foldl,
    bipEdgeFold_hasEdge (compatPairs g) (bipBase g) (compatPairs_first_in_bipBase g) a b]
  have hbe : (bipBase g).hasEdge a b = true ↔ False := by
    rw [NXGraph.hasEdge_eq_true_iff, edges_bipBase]
    simp
  rw [hbe, or_false]
  constructor
  · rintro ⟨p, hp, hn, hk⟩
    obtain ⟨h1, h2⟩ := (mem_compatPairs g p).mp hp
    have hmem := (NXGraph.hasNode_eq_true_iff _ _).mp hn
    rw [mem_nodeKeys_bipBase] at hmem
    refine ⟨p.1, p.2, h1, h2, ?_, ?_⟩
    · rcases hmem with hv | hs
      · obtain ⟨w, hw, hws⟩ := List.mem_map.mp hv
        exact ⟨w, Or.inl ((mem_vehiclesOf g w).mp hw), hws.symm⟩
      · obtain ⟨w, hw, hws⟩ := List.mem_map.mp hs
        exact ⟨w, Or.inr ((mem_sensorsOf g w).mp hw), hws.symm⟩
    · rw [NXGraph.keyMatches_iff] at hk
      rcases hk with ⟨hk1, hk2⟩ | ⟨hk1, hk2⟩
      · exact Or.inl ⟨hk1.symm, hk2.symm⟩
      · exact Or.inr ⟨hk2.symm, hk1.symm⟩
  · rintro ⟨v, o, h1, h2, ⟨w, hw, hws⟩, hor⟩
    refine ⟨(v, o), (mem_compatPairs g (v, o)).mpr ⟨h1, h2⟩, ?_, ?_⟩
    · rw [NXGraph.hasNode_eq_true_iff, mem_nodeKeys_bipBase]
      rcases hw with hw | hw
      · exact Or.inl (List.mem_map.mpr ⟨w, (mem_vehiclesOf g w).mpr hw, hws.symm⟩)
      · exact Or.inr (List.mem_map.mpr ⟨w, (mem_sensorsOf g w).mpr hw, hws.symm⟩)
    · rw [NXGraph.keyMatches_iff]
      rcases hor with ⟨ha, hb⟩ | ⟨ha, hb⟩
      · exact Or.inl ⟨ha.symm, hb.symm⟩
      · exact Or.inr ⟨hb.symm, ha.symm⟩

/-- C2 witness: the compatibility assertion of the Scenario A graph yields
its bipartite edge through the amended characterization. -/
theorem bipartite_edge_iff_witness :
    (to_networkx_bipartite_graph exampleGraphA).hasEdge
        "http://example.com/vehicle/V1" "http://example.com/sensor/S1" = true :=
  (bipartite_edge_iff exampleGraphA "http://example.com/vehicle/V1"
      "http://example.com/sensor/S1").mpr
    ⟨.uri "http://example.com/vehicle/V1", .uri "http://example.com/sensor/S1",
      by decide, by decide,
      ⟨.uri "http://example.com/sensor/S1", Or.inr (by decide), rfl⟩,
      Or.inl ⟨rfl, rfl⟩⟩

/-- The two-triple graph of Scenario C: the same URI pair under two
predicates. -/
def scenarioCGraph (bs : List (String × String)) (a p1 p2 b : String) : RDFGraph :=
  ⟨[(.uri a, .uri p1, .uri b), (.uri a, .uri p2, .uri b)], bs⟩

theorem entityEdgeStep_uri (g : RDFGraph) (G : NXGraph EntityAttr EdgeAttr)
    (a p b : String) :
    entityEdgeStep g G (Term.uri a, Term.uri p, Term.uri b) =
      G.addEdge a b ⟨qname g p, p⟩ := rfl

/-- C5: on a triple set of exactly the two triples (a,p1,b) and (a,p2,b)
the entity projection holds exactly one edge, carrying the predicate
processed last, while the tabular export holds exactly two edge rows for
the same pair, one per predicate. -/
theorem scenario_c (bs : List (String × String)) (a p1 p2 b : String) (hp : p1 ≠ p2) :
    (to_networkx_entity_graph (scenarioCGraph bs a p1 p2 b)).edges =
      [((a, b), ⟨qname (scenarioCGraph bs a p1 p2 b) p2, p2⟩)] ∧
    (export_to_csv (scenarioCGraph bs a p1 p2 b)).2 =
      [⟨a, b, strUpper (strReplaceChar (qname (scenarioCGraph bs a p1 p2 b) p1) ':' '_'), p1⟩,
       ⟨a, b, strUpper (strReplaceChar (qname (scenarioCGraph bs a p1 p2 b) p2) ':' '_'), p2⟩] := by
  constructor
  · show ([(Term.uri a, Term.uri p1, Term.uri b), (Term.uri a, Term.uri p2, Term.uri b)].foldl
        (entityEdgeStep (scenarioCGraph bs a p1 p2 b))
        (entityBase (scenarioCGraph bs a p1 p2 b))).edges = _
    rw [List.foldl_cons, List.foldl_cons, List.foldl_nil, entityEdgeStep_uri,
      entityEdgeStep_uri]
    have h0 : (entityBase (scenarioCGraph bs a p1 p2 b)).hasEdge a b = false := by
      unfold NXGraph.hasEdge
      rw [edges_entityBase]
      rfl
    have h1 : ((entityBase (scenarioCGraph bs a p1 p2 b)).addEdge a b
        ⟨qname (scenarioCGraph bs a p1 p2 b) p1, p1⟩).hasEdge a b = true := by
      rw [NXGraph.hasEdge_addEdge]
      refine Or.inl ?_
      rw [NXGraph.keyMatches_iff]
      exact Or.inl ⟨rfl, rfl⟩
    rw [NXGraph.edges_addEdge, h1, if_pos rfl, NXGraph.edges_addEdge, h0]
    rw [if_neg (by simp), edges_entityBase]
    have hk : NXGraph.keyMatches (a, b) a b = true := by
      rw [NXGraph.keyMatches_iff]
      exact Or.inl ⟨rfl, rfl⟩
    simp [hk]
  · rfl

/-- C5 witness: the scenario at concrete identifiers. -/
theorem scenario_c_witness :
    (to_networkx_entity_graph
        (scenarioCGraph NS_MAP "http://x/a" "http://p/q1" "http://p/q2" "http://x/b")).edges =
      [(("http://x/a", "http://x/b"),
        ⟨qname (scenarioCGraph NS_MAP "http://x/a" "http://p/q1" "http://p/q2" "http://x/b")
            "http://p/q2", "http://p/q2"⟩)] ∧
    (export_to_csv
        (scenarioCGraph NS_MAP "http://x/a" "http://p/q1" "http://p/q2" "http://x/b")).2 =
      [⟨"http://x/a", "http://x/b",
        strUpper (strReplaceChar (qname (scenarioCGraph NS_MAP "http://x/a" "http://p/q1" "http://p/q2" "http://x/b")
            "http://p/q1") ':' '_'), "http://p/q1"⟩,
       ⟨"http://x/a", "http://x/b",
        strUpper (strReplaceChar (qname (scenarioCGraph NS_MAP "http://x/a" "http://p/q1" "http://p/q2" "http://x/b")
            "http://p/q2") ':' '_'), "http://p/q2"⟩] :=
  scenario_c NS_MAP "http://x/a" "http://p/q1" "http://p/q2" "http://x/b" (by decide)

/-- C6 counterexample: for a resource with no label and no matching
binding, the resolver used by the projectors (nx_convert.get_label) returns
the angle-bracket N3 form, not the final path segment; only the exporter's
resolver returns the segment. -/
theorem label_fallback_counterexample :
    NxConvert.get_label ⟨[], NS_MAP⟩ (Term.uri "http://other.org/places/Bangalore") =
        "<http://other.org/places/Bangalore>" ∧
    RdfUtils.get_node_label ⟨[], NS_MAP⟩ (Term.uri "http://other.org/places/Bangalore") =
        "Bangalore" ∧
    "<http://other.org/places/Bangalore>" ≠ "Bangalore" := by
  refine ⟨?_, ?_, ?_⟩ <;> decide

/-- C6 (amended): for a resource with no rdfs:label triple and no matching
namespace binding, the exporter's resolver get_node_label returns the final
path segment, while the projectors' resolver get_label returns the
identifier wrapped in angle brackets. -/
theorem label_fallback (g : RDFGraph) (u : String)
    (hl : ∀ o, (Term.uri u, RDFS_label, o) ∉ g.triples)
    (hb : ∀ ns loc, splitUri u = some (ns, loc) → prefixFor g ns = none) :
    RdfUtils.get_node_label g (Term.uri u) = lastSegment u ∧
    NxConvert.get_label g (Term.uri u) = "<" ++ u ++ ">" := by
  have hv : g.value (Term.uri u) RDFS_label = none := value_eq_none g _ _ hl
  have hn : normalizeUri g u = "<" ++ u ++ ">" := normalizeUri_eq_bracket g u hb
  constructor
  · unfold RdfUtils.get_node_label
    rw [if_neg (by simp [Term.isUri])]
    rw [hv]
    show RdfUtils.qnameOrSegment g (Term.uri u).str = lastSegment u
    unfold RdfUtils.qnameOrSegment
    dsimp only [Term.str]
    rw [hn, strStartsWith_bracket, if_pos rfl]
  · unfold NxConvert.get_label
    rw [hv]
    show normalizeUri g (Term.uri u).str = "<" ++ u ++ ">"
    dsimp only [Term.str]
    exact hn

/-- C6 witness: the amended fallback at a concrete unbound identifier. -/
theorem label_fallback_witness :
    RdfUtils.get_node_label ⟨[], NS_MAP⟩ (Term.uri "http://other.org/streets/MGRoad") =
        lastSegment "http://other.org/streets/MGRoad" ∧
    NxConvert.get_label ⟨[], NS_MAP⟩ (Term.uri "http://other.org/streets/MGRoad") =
        "<" ++ "http://other.org/streets/MGRoad" ++ ">" :=
  label_fallback ⟨[], NS_MAP⟩ "http://other.org/streets/MGRoad"
    (by intro o h; simp at h)
    (by
      intro ns loc h
      have hsplit : splitUri "http://other.org/streets/MGRoad" =
          some ("http://other.org/streets/", "MGRoad") := by decide
      rw [hsplit] at h
      injection h with hpair
      rw [Prod.mk.injEq] at hpair
      obtain ⟨h1, h2⟩ := hpair
      subst h1
      decide)

/-- C7: a node row for a resource with no rdf:type triple carries the type
Resource when the resource is the subject of some triple, and carries the
secondary sentinel Concept exactly when type resolution yields the sentinel
and the resource is never a subject. -/
theorem exporter_untyped_rows (g : RDFGraph) (u : Term)
    (hu : u ∈ collectEntityNodes g)
    (hnt : ∀ o, (u, RDF_type, o) ∉ g.triples) :
    nodeRowOf g u ∈ (export_to_csv g).1 ∧
    (isSubjectOf g u = true → (nodeRowOf g u).type = "Resource") ∧
    ((nodeRowOf g u).type = "Concept" ↔
      (RdfUtils.get_type_label g u = "Resource" ∧ isSubjectOf g u = false)) := by
  have ht : RdfUtils.get_type_label g u = "Resource" := get_type_label_of_no_type g u hnt
  refine ⟨List.mem_map.mpr ⟨u, hu, rfl⟩, ?_, ?_⟩
  · intro hs
    unfold nodeRowOf
    rw [ht, hs]
    simp
  · unfold nodeRowOf
    rw [ht]
    cases hs : isSubjectOf g u with
    | true => simp
    | false => simp

/-- C7 witness: the place resource of the example graph, object-only and
untyped, gets the Concept category. -/
theorem exporter_untyped_rows_witness :
    nodeRowOf exampleGraphA (Term.uri "http://example.com/place/Bangalore") ∈
        (export_to_csv exampleGraphA).1 ∧
    (isSubjectOf exampleGraphA (Term.uri "http://example.com/place/Bangalore") = true →
      (nodeRowOf exampleGraphA (Term.uri "http://example.com/place/Bangalore")).type =
        "Resource") ∧
    ((nodeRowOf exampleGraphA (Term.uri "http://example.com/place/Bangalore")).type =
        "Concept" ↔
      (RdfUtils.get_type_label exampleGraphA
          (Term.uri "http://example.com/place/Bangalore") = "Resource" ∧
        isSubjectOf exampleGraphA (Term.uri "http://example.com/place/Bangalore") = false)) :=
  exporter_untyped_rows exampleGraphA (Term.uri "http://example.com/place/Bangalore")
    (by decide)
    (by
      intro o h
      simp only [exampleGraphA, List.mem_cons, Prod.mk.injEq] at h
      rcases h with h | h | h | h | h | h | h
      · exact absurd h.1 (by decide)
      · exact absurd h.1 (by decide)
      · exact absurd h.1 (by decide)
      · exact absurd h.1 (by decide)
      · exact absurd h.1 (by decide)
      · exact absurd h.1 (by decide)
      · exact absurd h (by simp))

theorem export_edge_rows_shape_aux (g : RDFGraph) (r : EdgeRow)
    (hr : r ∈ (export_to_csv g).2) :
    ∃ t ∈ g.triples, t.1.isUri = true ∧ t.2.2.isUri = true ∧
      r.type = strUpper (strReplaceChar (qname g t.2.1.str) ':' '_') ∧
      r.uri = t.2.1.str ∧ r.start_uri = t.1.str ∧ r.end_uri = t.2.2.str := by
  have hr2 : r ∈ g.triples.filterMap (fun t =>
      if t.1.isUri && t.2.2.isUri then
        some (⟨t.1.str, t.2.2.str, strUpper (strReplaceChar (qname g t.2.1.str) ':' '_'),
          t.2.1.str⟩ : EdgeRow)
      else none) := hr
  obtain ⟨t, ht, hf⟩ := List.mem_filterMap.mp hr2
  by_cases hc : (t.1.isUri && t.2.2.isUri) = true
  · rw [if_pos hc] at hf
    injection hf with hf
    rw [Bool.and_eq_true] at hc
    refine ⟨t, ht, hc.1, hc.2, ?_, ?_, ?_, ?_⟩ <;> rw [← hf]
  · rw [if_neg hc] at hf
    exact absurd hf (by simp)

/-- C8: every edge row of the tabular export comes from a triple between
URI references, its relation tag is the qualified predicate name with the
colon replaced by an underscore and upper-cased, and it carries the raw
predicate identifier. -/
theorem export_edge_row_shape (g : RDFGraph) (r : EdgeRow)
    (hr : r ∈ (export_to_csv g).2) :
    ∃ t ∈ g.triples, t.1.isUri = true ∧ t.2.2.isUri = true ∧
      r.type = strUpper (strReplaceChar (qname g t.2.1.str) ':' '_') ∧
      r.uri = t.2.1.str ∧ r.start_uri = t.1.str ∧ r.end_uri = t.2.2.str :=
  export_edge_rows_shape_aux g r hr

/-- C8 witness: the rdf:type edge row of the example graph has tag RDF_TYPE
and carries the raw predicate. -/
theorem export_edge_row_shape_witness :
    ∃ t ∈ exampleGraphA.triples, t.1.isUri = true ∧ t.2.2.isUri = true ∧
      (⟨"http://example.com/vehicle/V1", "http://example.com/ontology/VehicleModel",
        "RDF_TYPE", "http://www.w3.org/1999/02/22-rdf-syntax-ns#type"⟩ : EdgeRow).type =
        strUpper (strReplaceChar (qname exampleGraphA t.2.1.str) ':' '_') ∧
      (⟨"http://example.com/vehicle/V1", "http://example.com/ontology/VehicleModel",
        "RDF_TYPE", "http://www.w3.org/1999/02/22-rdf-syntax-ns#type"⟩ : EdgeRow).uri =
        t.2.1.str ∧
      (⟨"http://example.com/vehicle/V1", "http://example.com/ontology/VehicleModel",
        "RDF_TYPE", "http://www.w3.org/1999/02/22-rdf-syntax-ns#type"⟩ : EdgeRow).start_uri =
        t.1.str ∧
      (⟨"http://example.com/vehicle/V1", "http://example.com/ontology/VehicleModel",
        "RDF_TYPE", "http://www.w3.org/1999/02/22-rdf-syntax-ns#type"⟩ : EdgeRow).end_uri =
        t.2.2.str :=
  export_edge_row_shape exampleGraphA
    ⟨"http://example.com/vehicle/V1", "http://example.com/ontology/VehicleModel",
      "RDF_TYPE", "http://www.w3.org/1999/02/22-rdf-syntax-ns#type"⟩
    (by decide)

/-- C10: blank nodes contribute nothing: every entity-graph node comes from
a URI reference occurring in subject or object position, every entity-graph
edge and every export edge row comes from a triple whose subject and object
are both URI references, and every node row identifies a URI occurring as
subject or object. -/
theorem uri_only_projection (g : RDFGraph) :
    (∀ n ∈ (to_networkx_entity_graph g).nodeKeys,
      ∃ t ∈ g.triples, t.1 = Term.uri n ∨ t.2.2 = Term.uri n) ∧
    (∀ e ∈ (to_networkx_entity_graph g).edges,
      ∃ t ∈ g.triples, t.1.isUri = true ∧ t.2.2.isUri = true ∧
        e.1 = (t.1.str, t.2.2.str)) ∧
    (∀ r ∈ (export_to_csv g).1,
      ∃ t ∈ g.triples, t.1 = Term.uri r.uri ∨ t.2.2 = Term.uri r.uri) ∧
    (∀ r ∈ (export_to_csv g).2,
      ∃ t ∈ g.triples, t.1.isUri = true ∧ t.2.2.isUri = true ∧
        r.start_uri = t.1.str ∧ r.end_uri = t.2.2.str) := by
  refine ⟨?_, ?_, ?_, ?_⟩
  · intro n hn
    rw [mem_nodeKeys_entity_graph] at hn
    obtain ⟨t0, ht0, hstr⟩ := List.mem_map.mp hn
    obtain ⟨hu, tr, htr, hor⟩ := (mem_collectEntityNodes g t0).mp ht0
    have ht0u : t0 = Term.uri n := by
      rw [Term.eq_uri_of_isUri t0 hu, hstr]
    refine ⟨tr, htr, ?_⟩
    rcases hor with h | h
    · exact Or.inl (by rw [← h, ht0u])
    · exact Or.inr (by rw [← h, ht0u])
  · intro e he
    unfold to_networkx_entity_graph at he
    rcases edges_origin_foldl_entityEdgeStep g g.triples (entityBase g) e he with
      ⟨c, hc⟩ | ⟨t, ht, h1, h2, hk⟩
    · rw [edges_entityBase] at hc
      simp at hc
    · exact ⟨t, ht, h1, h2, hk⟩
  · intro r hr
    have hr2 : r ∈ (collectEntityNodes g).map (nodeRowOf g) := hr
    obtain ⟨t0, ht0, hrow⟩ := List.mem_map.mp hr2
    obtain ⟨hu, tr, htr, hor⟩ := (mem_collectEntityNodes g t0).mp ht0
    have huri : r.uri = t0.str := by
      rw [← hrow]
      rfl
    have ht0u : t0 = Term.uri r.uri := by
      rw [huri]
      exact Term.eq_uri_of_isUri t0 hu
    refine ⟨tr, htr, ?_⟩
    rcases hor with h | h
    · exact Or.inl (by rw [← h, ht0u])
    · exact Or.inr (by rw [← h, ht0u])
  · intro r hr
    obtain ⟨t, ht, h1, h2, _, _, h5, h6⟩ := export_edge_rows_shape_aux g r hr
    exact ⟨t, ht, h1, h2, h5, h6⟩

/-- C10 witness: the vehicle node of the example graph originates from a
URI occurrence. -/
theorem uri_only_projection_witness :
    ∃ t ∈ exampleGraphA.triples,
      t.1 = Term.uri "http://example.com/vehicle/V1" ∨
        t.2.2 = Term.uri "http://example.com/vehicle/V1" :=
  (uri_only_projection exampleGraphA).1 "http://example.com/vehicle/V1" (by decide)

end KGSensors
